import Mathlib

/-!
Shallow embedding of the kek pipeline (src/config.rs, src/file_processor.rs,
src/main.rs, src/output.rs): path resolution, classification, concurrent
drain/dedup/group/sort aggregation, and output streaming.

Paths are modelled as lists of components, mirroring the `std::path::Component`
view that the source operates on.  Glob matchers are external collaborators
(precompiled `GlobSet`s), modelled as abstract boolean predicates on relative
paths.  File sizes (`u64`) are modelled as `Nat`.
-/

namespace Kek

/-- Model of `std::path::Component`: root, parent (`..`), current (`.`),
prefix components (Windows drive prefixes), and normal named components. -/
inductive Component where
  | rootDir : Component
  | parentDir : Component
  | curDir : Component
  | prefixC : String → Component
  | normal : String → Component
deriving DecidableEq, Repr

/-- A path, viewed as its component list (the view `Path::components` gives). -/
abbrev RPath := List Component

/-- Model of `config.rs::AppConfig`: the two precompiled glob matchers,
viewed abstractly as predicates on relative paths (`GlobSet::is_match`). -/
structure AppConfig where
  docs : RPath → Bool
  src : RPath → Bool

/-- `config.rs::DOCS_DESCRIPTION`. -/
def DOCS_DESCRIPTION : String := "Immutable documentation. Provided FOR REFERENCE ONLY."

/-- `config.rs::SRC_DESCRIPTION`. -/
def SRC_DESCRIPTION : String := "Source code files."

/-- `config.rs::OTHER_DESCRIPTION`. -/
def OTHER_DESCRIPTION : String := "Other files."

/-- `file_processor.rs::FileCategoryType`. -/
inductive FileCategoryType where
  | Docs : FileCategoryType
  | Src : FileCategoryType
  | Other : FileCategoryType
deriving DecidableEq, Repr

/-- `FileCategoryType::get_description`. -/
def FileCategoryType.get_description : FileCategoryType → String
  | .Docs => DOCS_DESCRIPTION
  | .Src => SRC_DESCRIPTION
  | .Other => OTHER_DESCRIPTION

/-- `file_processor.rs::FileData`. -/
structure FileData where
  relative_path : RPath
  absolute_path : RPath
  size : Nat
deriving DecidableEq, Repr

/-- `file_processor.rs::CategoryData`. -/
structure CategoryData where
  description_text : String
  files : List FileData
  total_size : Nat
deriving DecidableEq, Repr

/-- `file_processor.rs::categorize_file` (lines 92-100): docs matcher first,
then src matcher, else Other. -/
def categorize_file (relative_path : RPath) (config : AppConfig) : FileCategoryType :=
  if config.docs relative_path then .Docs
  else if config.src relative_path then .Src
  else .Other

/-- Model of `Path::strip_prefix`: succeeds iff `base`'s components are a
prefix of `target`'s components, returning the remaining components. -/
def stripPre (target base : RPath) : Option RPath :=
  if base.isPrefixOf target then some (target.drop base.length) else none

/-- Length of the longest common component prefix (the `common_prefix_len`
loop of `create_relative_path`, lines 39-45). -/
def commonPrefixLen : RPath → RPath → Nat
  | [], _ => 0
  | _, [] => 0
  | b :: bs, t :: ts => if b = t then commonPrefixLen bs ts + 1 else 0

/-- The second loop of `create_relative_path` (lines 56-65): walks the
remaining target components, skipping root/prefix components (with an early
`Ok(".")` return when the accumulated path is empty and this is the last
component), pushing every other component; then the final empty check
(lines 67-71). -/
def crpLoop (rel : RPath) : RPath → Except String RPath
  | [] => if rel = [] then .ok [.curDir] else .ok rel
  | c :: rest =>
    match c with
    | .rootDir => if rel = [] ∧ rest = [] then .ok [.curDir] else crpLoop rel rest
    | .prefixC _ => if rel = [] ∧ rest = [] then .ok [.curDir] else crpLoop rel rest
    | _ => crpLoop (rel ++ [c]) rest

/-- `file_processor.rs::create_relative_path` (lines 27-72). -/
def create_relative_path (base target : RPath) : Except String RPath :=
  match stripPre target base with
  | some stripped => if stripped = [] then .ok [.curDir] else .ok stripped
  | none =>
    let cpl := commonPrefixLen base target
    let rel0 : RPath :=
      if (base.drop cpl).all (fun c => decide (c = .curDir)) then []
      else List.replicate (base.length - cpl) .parentDir
    crpLoop rel0 (target.drop cpl)

/-- Element type of the shared lock-free stack
(`Stack<Result<(FileCategoryType, FileData), String>>`, line 107). -/
abbrev StackElem := Except String (FileCategoryType × FileData)

/-- Model of the `FxHashMap<FileCategoryType, Vec<FileData>>` used for
grouping (line 237): the key type is a closed three-value enumeration, so the
map is a triple of vectors; `entry().or_default().push` appends at the end. -/
structure Groups where
  docs : List FileData
  src : List FileData
  other : List FileData
deriving DecidableEq, Repr

/-- The empty grouping map. -/
def Groups.empty : Groups := ⟨[], [], []⟩

/-- Map lookup (empty vector when the key is absent; the source map never
holds an empty vector, entries are only created by a push). -/
def Groups.get : Groups → FileCategoryType → List FileData
  | g, .Docs => g.docs
  | g, .Src => g.src
  | g, .Other => g.other

/-- `grouped_files.entry(category_type).or_default().push(file_data)`. -/
def Groups.push (g : Groups) (c : FileCategoryType) (fd : FileData) : Groups :=
  match c with
  | .Docs => { g with docs := g.docs ++ [fd] }
  | .Src => { g with src := g.src ++ [fd] }
  | .Other => { g with other := g.other ++ [fd] }

/-- The drain loop of `process_all_categories` (lines 240-254): sequentially
consumes the stack contents; an `Ok` entry is kept iff its canonical absolute
path was not seen before (`processed_abs_paths.insert` returning true); an
`Err` entry only logs and is dropped.  `seen` models `processed_abs_paths`. -/
def drainLoop : List StackElem → Groups → List RPath → Groups
  | [], g, _ => g
  | .error _ :: rest, g, seen => drainLoop rest g seen
  | .ok (c, fd) :: rest, g, seen =>
    if fd.absolute_path ∈ seen then drainLoop rest g seen
    else drainLoop rest (g.push c fd) (fd.absolute_path :: seen)

/-- Drain of the whole stack starting from the empty map and empty seen-set. -/
def drain (l : List StackElem) : Groups := drainLoop l Groups.empty []

/-- The bucket built for one category (lines 267-271): description from the
category, the group's files, `total_size` the sum of member sizes. -/
def mkBucket (g : Groups) (c : FileCategoryType) : CategoryData :=
  { description_text := c.get_description
    files := g.get c
    total_size := ((g.get c).map FileData.size).sum }

/-- Bucket construction (lines 256-273): for each category in the fixed order
Docs, Src, Other, if its group is present (and non-empty — the map never
holds an empty vector), append its bucket. -/
def buildCategoryData (g : Groups) : List CategoryData :=
  (if g.get .Docs = [] then [] else [mkBucket g .Docs])
    ++ (if g.get .Src = [] then [] else [mkBucket g .Src])
    ++ (if g.get .Other = [] then [] else [mkBucket g .Other])

/-- Stable insertion for the descending-by-`total_size` sort: `x` is placed
before the first element whose `total_size` does not exceed `x`'s, so elements
with equal totals keep their original relative order. -/
def insertDesc (x : CategoryData) : List CategoryData → List CategoryData
  | [] => [x]
  | y :: ys => if y.total_size ≤ x.total_size then x :: y :: ys else y :: insertDesc x ys

/-- Model of `all_category_data.sort_by(|a, b| b.total_size.cmp(&a.total_size))`
(line 275).  Rust's `sort_by` is a stable sort; a stable sort and comparator
determine the output uniquely, so a stable insertion sort is a faithful model. -/
def sortDesc : List CategoryData → List CategoryData
  | [] => []
  | x :: xs => insertDesc x (sortDesc xs)

/-- The sequential aggregation phase of `process_all_categories`
(lines 237-277): drain, dedup, group, bucket, sort. -/
def processDrained (l : List StackElem) : List CategoryData :=
  sortDesc (buildCategoryData (drain l))

/-- External filesystem facts about one configured scan root: the result of
`fs::canonicalize` on its absolute form, and whether the canonical path is a
directory. -/
structure RootInfo where
  canon : Option RPath
  isDir : Bool

/-- A configured scan root is valid iff it canonicalizes and is a directory
(lines 126-143: either failure warns and skips the root). -/
def rootValid (r : RootInfo) : Bool := r.canon.isSome && r.isDir

/-- The scan-root loop state (lines 116-159): `has_valid_scan_paths` and
whether `walk_builder_opt` is `Some`.  Each valid root sets both. -/
def scanRootsFold (roots : List RootInfo) : Bool × Bool :=
  roots.foldl
    (fun st r => if rootValid r then (true, true) else st)
    (false, false)

/-- `file_processor.rs::process_all_categories` (lines 102-278).  External
effects enter as oracles: `cwdCanon` is the result of canonicalizing the
working directory (lines 109-114), `roots` the filesystem facts about the
configured scan roots, and `walkResults` the contents of the shared stack
after the parallel walk completed.  If the working directory cannot be
canonicalized the function fails; if no scan root is valid it returns `Ok []`
without walking; otherwise it drains, groups and sorts the walk results. -/
def process_all_categories (cwdCanon : Option RPath) (roots : List RootInfo)
    (walkResults : List StackElem) : Except String (List CategoryData) :=
  match cwdCanon with
  | none => .error "Failed to canonicalize working directory"
  | some _ =>
    let st := scanRootsFold roots
    if !st.1 || !st.2 then .ok []
    else .ok (processDrained walkResults)

/-- External facts about one directory entry handed to the walker callback:
whether `entry.file_type()` reports a regular file, the result of
`fs::canonicalize(entry.path())`, and the size from `entry.metadata()`
(`none` models the respective failure). -/
structure DirEntryInfo where
  isFile : Bool
  canon : Option RPath
  size : Option Nat

/-- The per-entry walker callback of `process_all_categories` (lines 179-234):
returns the element pushed onto the shared stack, or `none` when the entry is
skipped (walk error, non-file, canonicalization failure, metadata failure, or
relative-path failure). -/
def callbackAction (config : AppConfig) (cwd : RPath)
    (entry : Except String DirEntryInfo) : Option StackElem :=
  match entry with
  | .error _ => none
  | .ok e =>
    if e.isFile then
      match e.canon with
      | none => none
      | some abs =>
        match e.size with
        | none => none
        | some sz =>
          match create_relative_path cwd abs with
          | .error _ => none
          | .ok rel =>
            some (.ok (categorize_file rel config,
                       { relative_path := rel, absolute_path := abs, size := sz }))
    else none

/-- The drain loop as the spec describes it, with no error branch: every
entry is a category/record pair and is deduplicated by canonical path. -/
def drainPairsLoop : List (FileCategoryType × FileData) → Groups → List RPath → Groups
  | [], g, _ => g
  | (c, fd) :: rest, g, seen =>
    if fd.absolute_path ∈ seen then drainPairsLoop rest g seen
    else drainPairsLoop rest (g.push c fd) (fd.absolute_path :: seen)

/-- The `Ok` payloads of a stack-element list. -/
def okEntries (l : List StackElem) : List (FileCategoryType × FileData) :=
  l.filterMap (fun el => match el with | .ok v => some v | .error _ => none)

/-- One outcome of a `sendfile` attempt (output.rs lines 116-121): a
completion transferring `n` bytes, an `EINTR` failure, or any other error. -/
inductive SendOutcome where
  | ok : Nat → SendOutcome
  | intr : SendOutcome
  | err : SendOutcome
deriving DecidableEq, Repr

/-- Errors the transfer loop can return (output.rs lines 122-140): a
zero-byte completion before the full size (`ErrorKind::WriteZero`) or any
non-`EINTR` `sendfile` error. -/
inductive TransferError where
  | writeZero : TransferError
  | fatal : TransferError
deriving DecidableEq, Repr

/-- The `sendfile` transfer loop of `write_output` (output.rs lines 112-142):
`while sent_total < file_size`, one outcome is consumed per attempt; `Ok(0)`
aborts with `WriteZero`, `Ok(n)` adds `n` to `sent_total`, `EINTR` retries,
any other error aborts.  The trace of outcomes is the oracle for the
successive `sendfile` calls; `none` means the trace ran out while the loop
still needed attempts (a model artifact, never a behavior of the code). -/
def sendLoop (size : Nat) : Nat → List SendOutcome → Option (Except TransferError Nat)
  | sent, evs =>
    if size ≤ sent then some (.ok sent)
    else
      match evs with
      | [] => none
      | .ok n :: rest =>
        if n = 0 then some (.error .writeZero)
        else sendLoop size (sent + n) rest
      | .intr :: rest => sendLoop size sent rest
      | .err :: _ => some (.error .fatal)

/-- A `sendfile` trace is bounded for `size`/`sent` when every completion in
it transfers at most the bytes still remaining at its position — the
guarantee of the `sendfile` syscall, which never transfers more than the
`remaining_to_send` count it is asked for. -/
def boundedTrace (size : Nat) : Nat → List SendOutcome → Bool
  | _, [] => true
  | sent, .ok n :: rest => decide (n ≤ size - sent) && boundedTrace size (sent + n) rest
  | sent, .intr :: rest => boundedTrace size sent rest
  | sent, .err :: rest => boundedTrace size sent rest

/-- One piece of the byte stream `write_output` produces: a buffered text
write, or a zero-copy `sendfile` content transfer from an opened file. -/
inductive Chunk where
  | text : String → Chunk
  | transfer : RPath → Nat → Chunk
deriving DecidableEq, Repr

/-- Unix `Display` rendering of one path component. -/
def Component.render : Component → String
  | .rootDir => "/"
  | .parentDir => ".."
  | .curDir => "."
  | .prefixC s => s
  | .normal s => s

/-- Unix `Display` rendering of a path from its components. -/
def renderPath : RPath → String
  | [] => ""
  | [c] => c.render
  | .rootDir :: rest => "/" ++ renderPath rest
  | c :: rest => c.render ++ "/" ++ renderPath rest

/-- The per-file body of `write_output`'s inner loop (output.rs lines
88-147): markup and path through the buffer, then — only when the recorded
size is positive — the `sendfile` content transfer, then the buffered
newline and closing markup. -/
def fileChunks (fd : FileData) : List Chunk :=
  [Chunk.text "<file>\n", Chunk.text "<path>\n",
   Chunk.text (renderPath fd.relative_path ++ "\n"), Chunk.text "</path>\n",
   Chunk.text "<content>\n"]
  ++ (if 0 < fd.size then [Chunk.transfer fd.absolute_path fd.size] else [])
  ++ [Chunk.text "\n", Chunk.text "</content>\n", Chunk.text "</file>\n"]

/-- The per-category body of `write_output`'s outer loop (output.rs lines
79-151). -/
def categoryChunks (cd : CategoryData) : List Chunk :=
  [Chunk.text "<category>\n", Chunk.text "<description>\n",
   Chunk.text (cd.description_text ++ "\n"), Chunk.text "</description>\n",
   Chunk.text "<files>\n"]
  ++ (cd.files.map fileChunks).flatten
  ++ [Chunk.text "</files>\n", Chunk.text "</category>\n"]

/-- `output.rs::write_output` (lines 60-164) as the chunk sequence it writes:
nothing at all when there is no category data and no task argument (the early
return, line 65); otherwise all category bodies followed by the `<task>` line
exactly when a task-argument string was supplied (lines 158-160). -/
def write_output (categories_data : List CategoryData) (task_args : Option String) :
    List Chunk :=
  if categories_data.isEmpty && task_args.isNone then []
  else
    (categories_data.map categoryChunks).flatten
    ++ (match task_args with
        | some joined_args => [Chunk.text ("<task>" ++ joined_args ++ "</task>\n")]
        | none => [])

/-- `main.rs` lines 34-39: the CLI arguments after the program name are
joined by spaces; an empty argument list yields no task string at all. -/
def taskArgsString (cli_args : List String) : Option String :=
  if cli_args.isEmpty then none else some (String.intercalate " " cli_args)

/-- The members of a file list with a given canonical absolute path. -/
def pathFilter (p : RPath) (l : List FileData) : List FileData :=
  l.filter (fun fd => decide (fd.absolute_path = p))

/-- The first drained entry with a given canonical absolute path. -/
def findFirst (p : RPath) (l : List (FileCategoryType × FileData)) :
    Option (FileCategoryType × FileData) :=
  l.find? (fun e => decide (e.2.absolute_path = p))

/-- Number of file records with a given canonical absolute path across all
buckets of a result. -/
def countPath (p : RPath) (res : List CategoryData) : Nat :=
  (res.map (fun b => (pathFilter p b.files).length)).sum

/-- The fixed category priority, read off a bucket's description string:
Docs before Src before Other. -/
def descPrio (s : String) : Nat :=
  if s = DOCS_DESCRIPTION then 0
  else if s = SRC_DESCRIPTION then 1
  else if s = OTHER_DESCRIPTION then 2
  else 3

/-- State invariant of the drain loop: no group holds a record whose path
the `processed_abs_paths` set has not recorded. -/
def GroupsClean (g : Groups) (seen : List RPath) : Prop :=
  ∀ q c, q ∉ seen → pathFilter q (g.get c) = []

/-- Required order between adjacent buckets of the final result: strictly
larger total first, ties resolved by the fixed category priority. -/
def bucketBefore (a b : CategoryData) : Prop :=
  b.total_size < a.total_size ∨
    (a.total_size = b.total_size ∧
      descPrio a.description_text < descPrio b.description_text)

/-- Example configuration whose matchers accept every path. -/
def cfgAll : AppConfig := ⟨fun _ => true, fun _ => true⟩

/-- Example configuration whose matchers accept no path. -/
def cfgNone : AppConfig := ⟨fun _ => false, fun _ => false⟩

/-- Example canonical absolute path. -/
def absX : RPath := [Component.rootDir, Component.normal "x.rs"]

/-- Example walker entry: a regular file at `absX` of size 7. -/
def entryX : DirEntryInfo := ⟨true, some absX, some 7⟩

/-- Example file record: a 10-byte documentation file. -/
def fdA : FileData :=
  ⟨[Component.normal "a.md"], [Component.rootDir, Component.normal "a.md"], 10⟩

/-- Example stack contents holding the single record `fdA`. -/
def stackA : List StackElem := [Except.ok (FileCategoryType.Docs, fdA)]

/-- The bucket that aggregating `stackA` produces. -/
def bucketA : CategoryData := ⟨DOCS_DESCRIPTION, [fdA], 10⟩

/-- Example zero-size file record. -/
def fdE : FileData :=
  ⟨[Component.normal "empty"], [Component.rootDir, Component.normal "empty"], 0⟩

lemma Groups.get_push (g : Groups) (c' : FileCategoryType) (fd : FileData)
    (c : FileCategoryType) :
    (g.push c' fd).get c = if c' = c then g.get c ++ [fd] else g.get c := by
  cases c' <;> cases c <;> simp [Groups.push, Groups.get]

lemma pathFilter_append (p : RPath) (l₁ l₂ : List FileData) :
    pathFilter p (l₁ ++ l₂) = pathFilter p l₁ ++ pathFilter p l₂ := by
  simp [pathFilter, List.filter_append]

lemma drainLoop_map_ok (l : List (FileCategoryType × FileData)) :
    ∀ g seen, drainLoop (l.map Except.ok) g seen = drainPairsLoop l g seen := by
  induction l with
  | nil => intro g seen; rfl
  | cons e rest ih =>
    intro g seen
    obtain ⟨c, fd⟩ := e
    simp only [List.map_cons, drainLoop, drainPairsLoop]
    split <;> apply ih

lemma groupsClean_empty : GroupsClean Groups.empty [] := by
  intro q c _
  cases c <;> rfl

lemma groupsClean_push (g : Groups) (seen : List RPath) (c' : FileCategoryType)
    (fd : FileData) (hg : GroupsClean g seen) :
    GroupsClean (g.push c' fd) (fd.absolute_path :: seen) := by
  intro q c hq
  rw [List.mem_cons] at hq
  push_neg at hq
  rw [Groups.get_push]
  split
  · rw [pathFilter_append, hg q c hq.2]
    simp [pathFilter, hq.1.symm]
  · exact hg q c hq.2

lemma drainPairs_filter_seen (es : List (FileCategoryType × FileData)) :
    ∀ g seen (p : RPath) (c : FileCategoryType), p ∈ seen →
      pathFilter p ((drainPairsLoop es g seen).get c) = pathFilter p (g.get c) := by
  induction es with
  | nil => intro g seen p c _; rfl
  | cons e rest ih =>
    intro g seen p c hp
    obtain ⟨c', fd⟩ := e
    simp only [drainPairsLoop]
    split
    · exact ih g seen p c hp
    · rename_i hnew
      rw [ih (g.push c' fd) (fd.absolute_path :: seen) p c (List.mem_cons_of_mem _ hp)]
      rw [Groups.get_push]
      have hne : ¬ fd.absolute_path = p := fun h => hnew (h ▸ hp)
      split
      · rw [pathFilter_append]
        simp [pathFilter, hne]
      · rfl

lemma drainPairs_filter (es : List (FileCategoryType × FileData)) :
    ∀ g seen (p : RPath) (c : FileCategoryType), GroupsClean g seen → p ∉ seen →
      pathFilter p ((drainPairsLoop es g seen).get c) =
        (match findFirst p es with
         | some (c₀, fd₀) => if c₀ = c then [fd₀] else []
         | none => []) := by
  induction es with
  | nil =>
    intro g seen p c hg hp
    exact hg p c hp
  | cons e rest ih =>
    intro g seen p c hg hp
    obtain ⟨c', fd⟩ := e
    by_cases hfd : fd.absolute_path = p
    · have hnew : fd.absolute_path ∉ seen := hfd ▸ hp
      have hff : findFirst p ((c', fd) :: rest) = some (c', fd) := by
        simp [findFirst, hfd]
      simp only [drainPairsLoop, if_neg hnew, hff]
      rw [drainPairs_filter_seen rest (g.push c' fd) (fd.absolute_path :: seen) p c
        (hfd ▸ List.mem_cons_self _ _)]
      rw [Groups.get_push]
      by_cases hcc : c' = c
      · rw [if_pos hcc, if_pos hcc, pathFilter_append, hg p c hp]
        simp [pathFilter, hfd]
      · rw [if_neg hcc, if_neg hcc]
        exact hg p c hp
    · have hff : findFirst p ((c', fd) :: rest) = findFirst p rest := by
        simp [findFirst, hfd]
      simp only [drainPairsLoop, hff]
      split
      · exact ih g seen p c hg hp
      · rename_i hnew
        have hp' : p ∉ fd.absolute_path :: seen := by
          simp only [List.mem_cons]
          push_neg
          exact ⟨fun h => hfd h.symm, hp⟩
        exact ih (g.push c' fd) (fd.absolute_path :: seen) p c
          (groupsClean_push g seen c' fd hg) hp'

lemma insertDesc_perm (x : CategoryData) (m : List CategoryData) :
    List.Perm (insertDesc x m) (x :: m) := by
  induction m with
  | nil => exact List.Perm.refl _
  | cons y ys ih =>
    simp only [insertDesc]
    split
    · exact List.Perm.refl _
    · exact (ih.cons y).trans (List.Perm.swap x y ys)

lemma sortDesc_perm (l : List CategoryData) : List.Perm (sortDesc l) l := by
  induction l with
  | nil => exact List.Perm.refl _
  | cons x xs ih => exact (insertDesc_perm x (sortDesc xs)).trans (ih.cons x)

lemma insertDesc_pairwise (x : CategoryData) (m : List CategoryData)
    (hm : m.Pairwise bucketBefore)
    (hx : ∀ y ∈ m, descPrio x.description_text < descPrio y.description_text) :
    (insertDesc x m).Pairwise bucketBefore := by
  induction m with
  | nil => simp [insertDesc, bucketBefore]
  | cons y ys ih =>
    rw [List.pairwise_cons] at hm
    obtain ⟨hy, hys⟩ := hm
    simp only [insertDesc]
    split
    · rename_i hle
      rw [List.pairwise_cons]
      refine ⟨?_, List.pairwise_cons.mpr ⟨hy, hys⟩⟩
      intro z hz
      rcases List.mem_cons.mp hz with rfl | hz'
      · rcases lt_or_eq_of_le hle with h | h
        · exact Or.inl h
        · exact Or.inr ⟨h.symm, hx z (List.mem_cons_self _ _)⟩
      · rcases hy z hz' with h | h
        · exact Or.inl (lt_of_lt_of_le h hle)
        · rcases lt_or_eq_of_le (h.1 ▸ hle) with h' | h'
          · exact Or.inl (h.1 ▸ h')
          · exact Or.inr ⟨h.1 ▸ h'.symm, hx z (List.mem_cons_of_mem _ hz')⟩
    · rename_i hgt
      rw [List.pairwise_cons]
      refine ⟨?_, ih hys (fun z hz => hx z (List.mem_cons_of_mem _ hz))⟩
      intro z hz
      rcases List.mem_cons.mp ((insertDesc_perm x ys).mem_iff.mp hz) with rfl | hz'
      · exact Or.inl (lt_of_not_le hgt)
      · exact hy z hz'

lemma sortDesc_pairwise (l : List CategoryData)
    (h : l.Pairwise (fun a b =>
      descPrio a.description_text < descPrio b.description_text)) :
    (sortDesc l).Pairwise bucketBefore := by
  induction l with
  | nil => simp [sortDesc]
  | cons x xs ih =>
    rw [List.pairwise_cons] at h
    exact insertDesc_pairwise x (sortDesc xs) (ih h.2)
      (fun y hy => h.1 y ((sortDesc_perm xs).mem_iff.mp hy))

lemma descPrio_get : descPrio (FileCategoryType.get_description .Docs) = 0
    ∧ descPrio (FileCategoryType.get_description .Src) = 1
    ∧ descPrio (FileCategoryType.get_description .Other) = 2 := by decide

lemma mem_ite_bucket {g : Groups} {c : FileCategoryType} {b : CategoryData}
    (hb : b ∈ if g.get c = [] then ([] : List CategoryData) else [mkBucket g c]) :
    g.get c ≠ [] ∧ b = mkBucket g c := by
  by_cases h : g.get c = []
  · rw [if_pos h] at hb
    exact absurd hb (List.not_mem_nil b)
  · rw [if_neg h] at hb
    exact ⟨h, List.mem_singleton.mp hb⟩

lemma buildCategoryData_mem (g : Groups) (b : CategoryData)
    (hb : b ∈ buildCategoryData g) :
    ∃ c : FileCategoryType, g.get c ≠ [] ∧ b = mkBucket g c := by
  unfold buildCategoryData at hb
  simp only [List.mem_append] at hb
  rcases hb with (h | h) | h
  · exact ⟨.Docs, (mem_ite_bucket h).1, (mem_ite_bucket h).2⟩
  · exact ⟨.Src, (mem_ite_bucket h).1, (mem_ite_bucket h).2⟩
  · exact ⟨.Other, (mem_ite_bucket h).1, (mem_ite_bucket h).2⟩

lemma buildCategoryData_prio (g : Groups) :
    (buildCategoryData g).Pairwise (fun a b =>
      descPrio a.description_text < descPrio b.description_text) := by
  unfold buildCategoryData
  by_cases h1 : g.get .Docs = [] <;> by_cases h2 : g.get .Src = [] <;>
    by_cases h3 : g.get .Other = [] <;>
    simp [h1, h2, h3, List.pairwise_cons, mkBucket, descPrio_get.1,
      descPrio_get.2.1, descPrio_get.2.2]

lemma countPath_perm (p : RPath) {bs cs : List CategoryData}
    (h : List.Perm bs cs) :
    countPath p bs = countPath p cs :=
  List.Perm.sum_eq (h.map _)

lemma countPath_build (p : RPath) (g : Groups) :
    countPath p (buildCategoryData g) =
      (pathFilter p (g.get .Docs)).length + (pathFilter p (g.get .Src)).length
        + (pathFilter p (g.get .Other)).length := by
  unfold buildCategoryData
  by_cases h1 : g.get .Docs = [] <;> by_cases h2 : g.get .Src = [] <;>
    by_cases h3 : g.get .Other = [] <;>
    (simp [h1, h2, h3, countPath, mkBucket, pathFilter]; try omega)

lemma callbackAction_file (config : AppConfig) (cwd a : RPath) (sz : Nat) :
    callbackAction config cwd (.ok ⟨true, some a, some sz⟩) =
      (match create_relative_path cwd a with
       | .error _ => none
       | .ok rel =>
         some (.ok (categorize_file rel config,
                    { relative_path := rel, absolute_path := a, size := sz }))) := rfl

lemma crpLoop_isOk (t : RPath) : ∀ rel : RPath, (crpLoop rel t).isOk = true := by
  induction t with
  | nil =>
    intro rel
    simp only [crpLoop]
    split <;> rfl
  | cons c rest ih =>
    intro rel
    cases c with
    | rootDir =>
      simp only [crpLoop]
      split
      · rfl
      · exact ih rel
    | prefixC s =>
      simp only [crpLoop]
      split
      · rfl
      · exact ih rel
    | parentDir => exact ih (rel ++ [.parentDir])
    | curDir => exact ih (rel ++ [.curDir])
    | normal s => exact ih (rel ++ [.normal s])

lemma create_relative_path_isOk (base target : RPath) :
    (create_relative_path base target).isOk = true := by
  unfold create_relative_path
  split
  · split <;> rfl
  · exact crpLoop_isOk _ _

lemma drainLoop_eq_pairs (l : List StackElem) :
    ∀ g seen, drainLoop l g seen = drainPairsLoop (okEntries l) g seen := by
  induction l with
  | nil => intro g seen; rfl
  | cons el rest ih =>
    intro g seen
    cases el with
    | error e => exact ih g seen
    | ok v =>
      obtain ⟨c, fd⟩ := v
      simp only [drainLoop, okEntries, List.filterMap_cons, drainPairsLoop]
      split
      · exact ih g seen
      · exact ih _ _

lemma sendLoop_done (size sent : Nat) (evs : List SendOutcome) (hs : size ≤ sent) :
    sendLoop size sent evs = some (.ok sent) := by
  rw [sendLoop.eq_def]
  exact if_pos hs

lemma sendLoop_nil (size sent : Nat) (hs : ¬ size ≤ sent) :
    sendLoop size sent [] = none := by
  rw [sendLoop.eq_def]
  exact if_neg hs

lemma sendLoop_cons_ok (size sent n : Nat) (rest : List SendOutcome)
    (hs : ¬ size ≤ sent) :
    sendLoop size sent (SendOutcome.ok n :: rest) =
      if n = 0 then some (.error .writeZero) else sendLoop size (sent + n) rest := by
  rw [sendLoop.eq_def]
  exact if_neg hs

lemma sendLoop_cons_intr (size sent : Nat) (rest : List SendOutcome)
    (hs : ¬ size ≤ sent) :
    sendLoop size sent (SendOutcome.intr :: rest) = sendLoop size sent rest := by
  rw [sendLoop.eq_def]
  exact if_neg hs

lemma sendLoop_cons_err (size sent : Nat) (rest : List SendOutcome)
    (hs : ¬ size ≤ sent) :
    sendLoop size sent (SendOutcome.err :: rest) = some (.error .fatal) := by
  rw [sendLoop.eq_def]
  exact if_neg hs

lemma sendLoop_exact (evs : List SendOutcome) :
    ∀ sent t : Nat, ∀ size : Nat, sent ≤ size → boundedTrace size sent evs = true →
      sendLoop size sent evs = some (.ok t) → t = size := by
  induction evs with
  | nil =>
    intro sent t size hle _ h
    by_cases hs : size ≤ sent
    · rw [sendLoop_done size sent [] hs] at h
      have ht : sent = t := by simpa using h
      omega
    · rw [sendLoop_nil size sent hs] at h
      exact absurd h (by simp)
  | cons ev rest ih =>
    intro sent t size hle hb h
    by_cases hs : size ≤ sent
    · rw [sendLoop_done size sent _ hs] at h
      have ht : sent = t := by simpa using h
      omega
    · cases ev with
      | ok n =>
        rw [sendLoop_cons_ok size sent n rest hs] at h
        by_cases hn : n = 0
        · rw [if_pos hn] at h
          exact absurd h (by simp)
        · rw [if_neg hn] at h
          simp only [boundedTrace, Bool.and_eq_true, decide_eq_true_eq] at hb
          exact ih (sent + n) t size (by omega) hb.2 h
      | intr =>
        simp only [boundedTrace] at hb
        rw [sendLoop_cons_intr size sent rest hs] at h
        exact ih sent t size hle hb h
      | err =>
        rw [sendLoop_cons_err size sent rest hs] at h
        exact absurd h (by simp)

/-- C1: for every relative path and classifier config, classification tests
the docs matcher first and returns Docs on a match; otherwise it tests the
src matcher and returns Src on a match; otherwise it returns Other.  A path
matching both matchers is always classified Docs. -/
theorem C1_categorize_precedence (config : AppConfig) (p : RPath) :
    categorize_file p config =
      (if config.docs p then .Docs else if config.src p then .Src else .Other)
    ∧ (config.docs p = true → categorize_file p config = .Docs) :=
  ⟨rfl, fun h => by simp [categorize_file, h]⟩

theorem C1_categorize_precedence_witness :
    cfgAll.docs [Component.normal "a.md"] = true
    ∧ categorize_file [Component.normal "a.md"] cfgAll = .Docs :=
  ⟨rfl, (C1_categorize_precedence cfgAll [Component.normal "a.md"]).2 rfl⟩

/-- C2: in the drained sequence, each canonical absolute path contributes at
most one FileRecord to the entire ResultSet; the first entry drained for a
given canonical path wins (landing in that first entry's category group) and
every later entry with the same canonical path is discarded, whatever its
category or metadata. -/
theorem C2_dedup_first_wins (l : List (FileCategoryType × FileData)) (p : RPath) :
    (∀ c, pathFilter p ((drain (l.map Except.ok)).get c) =
       (match findFirst p l with
        | some (c₀, fd₀) => if c₀ = c then [fd₀] else []
        | none => []))
    ∧ countPath p (processDrained (l.map Except.ok)) ≤ 1 := by
  have hmain : ∀ c, pathFilter p ((drain (l.map Except.ok)).get c) =
      (match findFirst p l with
       | some (c₀, fd₀) => if c₀ = c then [fd₀] else []
       | none => []) := by
    intro c
    unfold drain
    rw [drainLoop_map_ok]
    exact drainPairs_filter l Groups.empty [] p c groupsClean_empty (List.not_mem_nil p)
  refine ⟨hmain, ?_⟩
  unfold processDrained
  rw [countPath_perm p (sortDesc_perm _), countPath_build, hmain .Docs, hmain .Src,
    hmain .Other]
  cases hf : findFirst p l with
  | none => simp
  | some e =>
    obtain ⟨c₀, fd₀⟩ := e
    cases c₀ <;> simp

/-- C3: the ResultSet is a sequence of non-empty category buckets sorted by
total_size in descending order, equal totals appearing in the fixed priority
order Docs, Src, Other; a category with zero files never appears. -/
theorem C3_resultset_sorted (l : List StackElem) :
    (∀ b ∈ processDrained l, b.files ≠ [])
    ∧ (processDrained l).Pairwise bucketBefore := by
  constructor
  · intro b hb
    simp only [processDrained] at hb
    have hb' := (sortDesc_perm (buildCategoryData (drain l))).mem_iff.mp hb
    obtain ⟨c, hc, rfl⟩ := buildCategoryData_mem _ b hb'
    simpa [mkBucket] using hc
  · simp only [processDrained]
    exact sortDesc_pairwise _ (buildCategoryData_prio _)

theorem C3_resultset_sorted_witness :
    bucketA ∈ processDrained stackA ∧ bucketA.files ≠ [] := by
  have hmem : bucketA ∈ processDrained stackA := List.mem_singleton.mpr rfl
  exact ⟨hmem, (C3_resultset_sorted stackA).1 bucketA hmem⟩

/-- C4: the transfer loop repeats short completions until exactly the
recorded file size has been transferred (given the syscall's guarantee that
a completion never exceeds the requested remaining count); an interrupted
attempt is retried without error; a zero-byte completion before the full
size, or any other transfer error, aborts with the propagated error. -/
theorem C4_transfer_loop (size sent : Nat) (rest : List SendOutcome) :
    (∀ evs t, sent ≤ size → boundedTrace size sent evs = true →
        sendLoop size sent evs = some (.ok t) → t = size)
    ∧ (sent < size →
        sendLoop size sent (SendOutcome.intr :: rest) = sendLoop size sent rest)
    ∧ (sent < size →
        sendLoop size sent (SendOutcome.ok 0 :: rest) = some (.error .writeZero))
    ∧ (sent < size →
        sendLoop size sent (SendOutcome.err :: rest) = some (.error .fatal)) := by
  refine ⟨fun evs t hle hb h => sendLoop_exact evs sent t size hle hb h, ?_, ?_, ?_⟩
  · intro hlt
    exact sendLoop_cons_intr size sent rest (by omega)
  · intro hlt
    rw [sendLoop_cons_ok size sent 0 rest (by omega)]
    rfl
  · intro hlt
    exact sendLoop_cons_err size sent rest (by omega)

theorem C4_transfer_loop_witness :
    (3 : Nat) = 3
    ∧ sendLoop 5 0 [SendOutcome.intr, SendOutcome.ok 5] = sendLoop 5 0 [SendOutcome.ok 5]
    ∧ sendLoop 4 2 [SendOutcome.ok 0] = some (.error .writeZero)
    ∧ sendLoop 4 2 [SendOutcome.err] = some (.error .fatal) :=
  ⟨(C4_transfer_loop 3 0 []).1 [SendOutcome.ok 2, SendOutcome.intr, SendOutcome.ok 1] 3
      (by decide) (by decide) rfl,
   (C4_transfer_loop 5 0 [SendOutcome.ok 5]).2.1 (by decide),
   (C4_transfer_loop 4 2 [SendOutcome.ok 0]).2.2.1 (by decide),
   (C4_transfer_loop 4 2 [SendOutcome.err]).2.2.2 (by decide)⟩

/-- C5: every bucket of the final ResultSet has total_size equal to the exact
sum of the sizes of its member file records. -/
theorem C5_total_size_sum (l : List StackElem) (b : CategoryData)
    (hb : b ∈ processDrained l) :
    b.total_size = (b.files.map FileData.size).sum := by
  simp only [processDrained] at hb
  have hb' := (sortDesc_perm (buildCategoryData (drain l))).mem_iff.mp hb
  obtain ⟨c, hc, rfl⟩ := buildCategoryData_mem _ b hb'
  rfl

theorem C5_total_size_sum_witness :
    bucketA ∈ processDrained stackA
    ∧ bucketA.total_size = (bucketA.files.map FileData.size).sum := by
  have hmem : bucketA ∈ processDrained stackA := List.mem_singleton.mpr rfl
  exact ⟨hmem, C5_total_size_sum stackA bucketA hmem⟩

/-- C6: if no configured scan root is valid (each missing, not a directory,
or failing canonicalization — which covers an empty root list), the
walk-and-aggregate operation returns an empty ResultSet as a success, not an
error. -/
theorem C6_no_valid_roots_empty (cwd : RPath) (roots : List RootInfo)
    (walkResults : List StackElem)
    (h : ∀ r ∈ roots, rootValid r = false) :
    process_all_categories (some cwd) roots walkResults = .ok [] := by
  have hst : ∀ rs : List RootInfo, (∀ r ∈ rs, rootValid r = false) →
      scanRootsFold rs = (false, false) := by
    intro rs
    induction rs with
    | nil => intro _; rfl
    | cons r rs ih =>
      intro hall
      unfold scanRootsFold at ih ⊢
      rw [List.foldl_cons, hall r (List.mem_cons_self _ _)]
      simpa using ih (fun x hx => hall x (List.mem_cons_of_mem _ hx))
  simp [process_all_categories, hst roots h]

theorem C6_no_valid_roots_empty_witness :
    rootValid ⟨none, true⟩ = false
    ∧ process_all_categories (some []) [⟨none, true⟩] stackA = .ok [] :=
  ⟨rfl, C6_no_valid_roots_empty [] [⟨none, true⟩] stackA (by decide)⟩

/-- C7 counterexample: the claim that the Path Resolver fails with an error
for some pair of paths is false — `create_relative_path` returns `Ok` on
every pair of component lists, so no failing pair exists. -/
theorem C7_no_failing_pair :
    ¬ ∃ base target : RPath, (create_relative_path base target).isOk = false := by
  rintro ⟨b, t, h⟩
  rw [create_relative_path_isOk b t] at h
  exact absurd h (by simp)

/-- C7 amended: the Path Resolver never fails: for every pair of
canonicalized base and target paths it succeeds, so the caller's
skip-with-warning branch for path-resolution failure is unreachable — an
entry that is a regular file with successful canonicalization and metadata
is always pushed. -/
theorem C7_path_resolver_total (base target : RPath) (config : AppConfig)
    (e : DirEntryInfo) (a : RPath) (sz : Nat) :
    (create_relative_path base target).isOk = true
    ∧ (e.isFile = true → e.canon = some a → e.size = some sz →
        (callbackAction config base (.ok e)).isSome = true) := by
  refine ⟨create_relative_path_isOk base target, ?_⟩
  intro hf hc hsz
  simp only [callbackAction, hf, hc, hsz, if_true, ite_true]
  cases hcr : create_relative_path base a with
  | ok rel => simp
  | error msg =>
    have hok := create_relative_path_isOk base a
    rw [hcr] at hok
    exact Bool.noConfusion hok

theorem C7_path_resolver_total_witness :
    entryX.isFile = true
    ∧ (callbackAction cfgNone [] (Except.ok entryX)).isSome = true :=
  ⟨rfl, (C7_path_resolver_total [] absX cfgNone entryX absX 7).2 rfl rfl rfl⟩

/-- C8: the Output Streamer emits the trailing task line exactly when a
task-argument string was supplied (including the empty string, which arises
from a lone empty CLI argument), even when the bucket list is empty; with no
task argument and an empty bucket list, nothing at all is written. -/
theorem C8_task_trailer (cats : List CategoryData) (s : String) :
    write_output cats (some s) =
      (cats.map categoryChunks).flatten ++ [Chunk.text ("<task>" ++ s ++ "</task>\n")]
    ∧ write_output cats none = (cats.map categoryChunks).flatten
    ∧ write_output [] none = []
    ∧ write_output [] (taskArgsString [""]) = [Chunk.text "<task></task>\n"] := by
  refine ⟨by simp [write_output], ?_, rfl, ?_⟩
  · cases cats with
    | nil => rfl
    | cons c cs => simp [write_output]
  · rfl

/-- C9: the walker callback pushes only `Ok` values onto the shared stack,
so the `Err` branch of the drain loop is unreachable and draining an all-`Ok`
stack is the error-branch-free drain of its payloads — no discovered file is
discarded by the drain phase's error handling. -/
theorem C9_stack_all_ok (config : AppConfig) (cwd : RPath) :
    (∀ entry el, callbackAction config cwd entry = some el → el.isOk = true)
    ∧ (∀ l : List StackElem, (∀ el ∈ l, el.isOk = true) →
        drain l = drainPairsLoop (okEntries l) Groups.empty []) := by
  constructor
  · intro entry el h
    cases entry with
    | error e => simp [callbackAction] at h
    | ok e =>
      obtain ⟨isF, canonF, sizeF⟩ := e
      cases isF
      · simp [callbackAction] at h
      · cases canonF with
        | none => simp [callbackAction] at h
        | some a =>
          cases sizeF with
          | none => simp [callbackAction] at h
          | some sz =>
            rw [callbackAction_file] at h
            cases hcr : create_relative_path cwd a with
            | error msg =>
              rw [hcr] at h
              exact absurd h (by simp)
            | ok rel =>
              rw [hcr] at h
              have h2 : some (Except.ok (categorize_file rel config,
                  (⟨rel, a, sz⟩ : FileData)) : StackElem) = some el := h
              injection h2 with h'
              rw [← h']
              rfl
  · intro l _
    exact drainLoop_eq_pairs l Groups.empty []

theorem C9_stack_all_ok_witness :
    callbackAction cfgAll [] (Except.ok entryX)
        = some (Except.ok (FileCategoryType.Docs, ⟨absX, absX, 7⟩))
    ∧ (Except.ok (FileCategoryType.Docs, (⟨absX, absX, 7⟩ : FileData)) : StackElem).isOk
        = true
    ∧ drain stackA = drainPairsLoop (okEntries stackA) Groups.empty [] :=
  ⟨rfl,
   (C9_stack_all_ok cfgAll []).1 (Except.ok entryX) _ rfl,
   (C9_stack_all_ok cfgAll []).2 stackA (by decide)⟩

/-- C10: for a file record of size zero the Output Streamer performs no
content-transfer call at all — its `<content>` region holds only the single
buffered newline between the markers — and the transfer phase for that file
trivially succeeds without consuming any transfer attempt. -/
theorem C10_zero_size_no_transfer (fd : FileData) (h : fd.size = 0) :
    fileChunks fd =
      [Chunk.text "<file>\n", Chunk.text "<path>\n",
       Chunk.text (renderPath fd.relative_path ++ "\n"), Chunk.text "</path>\n",
       Chunk.text "<content>\n", Chunk.text "\n", Chunk.text "</content>\n",
       Chunk.text "</file>\n"]
    ∧ (∀ evs, sendLoop fd.size 0 evs = some (.ok 0)) := by
  constructor
  · simp [fileChunks, h]
  · intro evs
    rw [h]
    exact sendLoop_done 0 0 evs (le_refl 0)

theorem C10_zero_size_no_transfer_witness :
    fdE.size = 0
    ∧ sendLoop fdE.size 0 [SendOutcome.err] = some (.ok 0) :=
  ⟨rfl, (C10_zero_size_no_transfer fdE rfl).2 [SendOutcome.err]⟩

end Kek
